import Mathlib

/-!
Verification of the limit-element abstraction of the completion package.

The source file defines the class MacLaneElement, whose instances describe
elements of a completed field that are known only as the limit, along an
externally owned MacLane approximation chain, of one coefficient in a fixed
degree of the successive key polynomials.  The embedding below models the
attributes of the external chain that the source file reads, the external
ring primitives it calls, and each method of the class; each Python raise
site becomes a distinct error constructor of an Except result.

Conventions of the embedding: exact elements of the completed base ring are
rational numbers; polynomials over that ring are canonical coefficient
lists (no trailing zero, as the external polynomial ring stores them);
valuation values are rational numbers, and a valuation of a ring element
takes values in WithTop of the rationals because the valuation of zero is
infinite.
-/

/-- External ring primitives used by the source file on exact elements of
the completion: the valuation of an element, its reduction to the residue
field, and its printable form.  The source file treats them as
already-correct black boxes, so they are unconstrained function fields. -/
structure CompletionModel where
  val : ℚ → WithTop ℚ
  red : ℚ → ℚ
  eltRepr : ℚ → String

/-- Coefficient access on a polynomial stored as its coefficient list; the
external polynomial ring returns the zero coefficient beyond the degree. -/
def coeff (p : List ℚ) (d : Nat) : ℚ := p.getD d 0

/-- One approximation of the MacLane limit valuation, with exactly the
attributes the source file reads from it: its key polynomial, its value
mu on that key polynomial, and its predecessor valuation given by the
predecessor key polynomial and the action of the predecessor valuation on
polynomials. -/
structure Approximation where
  phi : List ℚ
  mu : ℚ
  basePhi : List ℚ
  baseVal : List ℚ → ℚ

/-- The generator of the polynomial ring, as a coefficient list. -/
def gen : List ℚ := [0, 1]

/-- The external MacLane limit valuation (the approximation chain), with
the attributes the source file reads: the current approximation, the
initial approximation, the identity of the parent ring (parents are
compared by identity), and an identity deciding equality of two limit
valuations. -/
structure LimitValuation where
  approximation : Approximation
  initialApproximation : Approximation
  parentId : Nat
  valId : Nat

/-- The element class: construction stores the limit valuation reference
and the degree, and nothing else. -/
structure MacLaneElement where
  limitValuation : LimitValuation
  degree : Nat

/-- The distinct failure sites of the source file.  In Python every one of
them raises NotImplementedError; distinct constructors record which raise
statement produced the failure. -/
inductive Err where
  | precisionUnsupported
  | insufficientValuation
  | insufficientReduction
  | comparisonToBase
  | differentRings
  | unsupportedOperator
  deriving DecidableEq

/-- Decidable equality of computation results, used to evaluate concrete
runs of the embedded operations. -/
instance {e : Type} {a : Type} [DecidableEq e] [DecidableEq a] :
    DecidableEq (Except e a) := fun x y =>
  match x, y with
  | .error e1, .error e2 =>
    if h : e1 = e2 then .isTrue (by rw [h]) else
      .isFalse (fun hc => by cases hc; exact h rfl)
  | .error _, .ok _ => .isFalse (fun hc => by cases hc)
  | .ok _, .error _ => .isFalse (fun hc => by cases hc)
  | .ok a1, .ok a2 =>
    if h : a1 = a2 then .isTrue (by rw [h]) else
      .isFalse (fun hc => by cases hc; exact h rfl)

/-- Embedding of the private precision method: when the predecessor key
polynomial is the ring generator, return mu minus degree times the value
of the predecessor valuation on its key polynomial; otherwise fail. -/
def MacLaneElement.precision (e : MacLaneElement) : Except Err ℚ :=
  let v_n := e.limitValuation.approximation
  if v_n.basePhi = gen then
    .ok (v_n.mu - (e.degree : ℚ) * v_n.baseVal v_n.basePhi)
  else
    .error .precisionUnsupported

/-- Embedding of the valuation method: compute the valuation of the tracked
coefficient of the key polynomial of the current approximation, return it
when the precision bound strictly exceeds it, fail otherwise; a failure of
the precision computation propagates. -/
def MacLaneElement.valuation (M : CompletionModel) (e : MacLaneElement) :
    Except Err (WithTop ℚ) :=
  let ret := M.val (coeff e.limitValuation.approximation.phi e.degree)
  match e.precision with
  | .error err => .error err
  | .ok p => if (p : WithTop ℚ) > ret then .ok ret else .error .insufficientValuation

/-- Embedding of the reduction method: when the precision bound is strictly
positive, return the reduction of the tracked coefficient of the key
polynomial of the current approximation, fail otherwise; a failure of the
precision computation propagates. -/
def MacLaneElement.reduction (M : CompletionModel) (e : MacLaneElement) :
    Except Err ℚ :=
  match e.precision with
  | .error err => .error err
  | .ok p =>
    if p > 0 then
      .ok (M.red (coeff e.limitValuation.approximation.phi e.degree))
    else
      .error .insufficientReduction

/-- The right-hand operand of the comparison method: either an exact
element of the completion (a BaseElement) or another limit element. -/
inductive Operand where
  | base (b : ℚ)
  | limit (f : MacLaneElement)

/-- The equality branch of the comparison method.  Against an exact
element: not equal when the valuation of the difference with the tracked
coefficient is below the precision bound, fail otherwise (and a failure of
the precision computation propagates).  Against another limit element:
when the parents coincide, equal exactly when the limit valuations are
equal and the degrees are equal; across different parents, fail. -/
def MacLaneElement.richcmpEq (M : CompletionModel) (e : MacLaneElement)
    (other : Operand) : Except Err Bool :=
  match other with
  | .base b =>
    match e.precision with
    | .error err => .error err
    | .ok p =>
      if M.val (b - coeff e.limitValuation.approximation.phi e.degree) < (p : WithTop ℚ) then
        .ok false
      else
        .error .comparisonToBase
  | .limit f =>
    if e.limitValuation.parentId = f.limitValuation.parentId then
      .ok (e.limitValuation.valId == f.limitValuation.valId && e.degree == f.degree)
    else
      .error .differentRings

/-- Embedding of the comparison method over the numeric comparison codes of
the element protocol: code 2 is equality, code 3 is inequality (the Python
negation of equality, propagating its failures), every other code fails. -/
def MacLaneElement.richcmp (M : CompletionModel) (e : MacLaneElement)
    (other : Operand) (op : Nat) : Except Err Bool :=
  if op = 2 then
    e.richcmpEq M other
  else if op = 3 then
    (e.richcmpEq M other).map (fun b => !b)
  else
    .error .unsupportedOperator

/-- Embedding of the repr method: render the tracked coefficient of the key
polynomial of the INITIAL approximation of the chain, wrap it in
parentheses when it contains a space, and append the unknown-remainder
marker. -/
def MacLaneElement.reprStr (M : CompletionModel) (e : MacLaneElement) : String :=
  let approximation := M.eltRepr (coeff e.limitValuation.initialApproximation.phi e.degree)
  let wrapped := if approximation.data.contains ' ' then "(" ++ approximation ++ ")" else approximation
  wrapped ++ " + O(?)"

/-- Modelled from the spec: the refinement operation of the chain is not
part of the source file (the chain is an external collaborator and its
refinement hook is the extension point of section 2 of the design);
refining advances the current approximation of the chain to a better one,
while the identity of the chain, its parent and its initial approximation
are unchanged. -/
def LimitValuation.refine (lv : LimitValuation) (a : Approximation) : LimitValuation :=
  { lv with approximation := a }

/-- Claim C1: for every limit element whose predecessor key polynomial
equals the ring generator, the precision computation returns exactly mu
minus degree times the value of the predecessor valuation on the
predecessor key polynomial. -/
theorem C1_precision_base_case (e : MacLaneElement)
    (h : e.limitValuation.approximation.basePhi = gen) :
    e.precision = .ok (e.limitValuation.approximation.mu
      - (e.degree : ℚ) * e.limitValuation.approximation.baseVal
          e.limitValuation.approximation.basePhi) := by
  simp [MacLaneElement.precision, h]

/-- A concrete completion model for the concrete instances below. -/
def Msample : CompletionModel where
  val := fun q => if q = 0 then ⊤ else if q = 1/5 then ((-1 : ℚ) : WithTop ℚ) else ((0 : ℚ) : WithTop ℚ)
  red := fun q => q
  eltRepr := fun q => if q = 57 then "57" else if q = 182 then "182" else "c"

/-- A concrete shallow approximation: key polynomial x + 57, value 3,
predecessor key polynomial the generator. -/
def aShallow : Approximation :=
  { phi := [57, 1], mu := 3, basePhi := gen, baseVal := fun _ => 0 }

/-- A concrete chain state whose current and initial approximations agree. -/
def lvShallow : LimitValuation :=
  { approximation := aShallow, initialApproximation := aShallow, parentId := 0, valId := 0 }

/-- A concrete limit element tracking the degree-zero coefficient. -/
def eShallow : MacLaneElement := { limitValuation := lvShallow, degree := 0 }

/-- Witness for C1 at a concrete element. -/
theorem C1_witness :
    eShallow.limitValuation.approximation.basePhi = gen ∧
    eShallow.precision = .ok (eShallow.limitValuation.approximation.mu
      - (eShallow.degree : ℚ) * eShallow.limitValuation.approximation.baseVal
          eShallow.limitValuation.approximation.basePhi) :=
  ⟨rfl, C1_precision_base_case eShallow rfl⟩

/-- Claim C6: for every limit element whose predecessor key polynomial is
not the ring generator, the precision computation fails with the
unsupported-configuration condition. -/
theorem C6_precision_deep (e : MacLaneElement)
    (h : e.limitValuation.approximation.basePhi ≠ gen) :
    e.precision = .error .precisionUnsupported := by
  simp [MacLaneElement.precision, h]

/-- A concrete deep approximation: the predecessor key polynomial is a
square of the generator, not the generator itself. -/
def aDeep : Approximation :=
  { phi := [2, 0, 1], mu := 4, basePhi := [0, 0, 1], baseVal := fun _ => 1 }

/-- A concrete deep chain state. -/
def lvDeep : LimitValuation :=
  { approximation := aDeep, initialApproximation := aDeep, parentId := 0, valId := 1 }

/-- A concrete limit element over the deep chain. -/
def eDeep : MacLaneElement := { limitValuation := lvDeep, degree := 0 }

/-- Witness for C6 at a concrete deep element. -/
theorem C6_witness :
    eDeep.limitValuation.approximation.basePhi ≠ gen ∧
    eDeep.precision = .error .precisionUnsupported :=
  ⟨by decide, C6_precision_deep eDeep (by decide)⟩

/-- Claim C2 (amended): the valuation operation computes the valuation of
the tracked coefficient of the current key polynomial, returns it when the
precision bound strictly exceeds it, and fails otherwise; in particular,
when the precision bound is exactly 0 and the observed valuation is
nonnegative, it fails rather than returning a value. -/
theorem C2_valuation_guard (M : CompletionModel) (e : MacLaneElement) (p : ℚ)
    (hp : e.precision = .ok p) :
    ((p : WithTop ℚ) > M.val (coeff e.limitValuation.approximation.phi e.degree) →
       MacLaneElement.valuation M e =
         .ok (M.val (coeff e.limitValuation.approximation.phi e.degree)))
    ∧ (¬ (p : WithTop ℚ) > M.val (coeff e.limitValuation.approximation.phi e.degree) →
       MacLaneElement.valuation M e = .error .insufficientValuation)
    ∧ (p = 0 → (0 : WithTop ℚ) ≤ M.val (coeff e.limitValuation.approximation.phi e.degree) →
       MacLaneElement.valuation M e = .error .insufficientValuation) := by
  refine ⟨?_, ?_, ?_⟩
  · intro h
    simp [MacLaneElement.valuation, hp, h]
  · intro h
    simp [MacLaneElement.valuation, hp, h]
  · intro h0 hle
    subst h0
    simp [MacLaneElement.valuation, hp, not_lt.mpr hle]

/-- Witness for C2 at a concrete element whose precision bound is 3 and
whose tracked coefficient has valuation 0. -/
theorem C2_witness :
    eShallow.precision = .ok (3 : ℚ) ∧
    ((3 : ℚ) : WithTop ℚ) > Msample.val (coeff eShallow.limitValuation.approximation.phi eShallow.degree) ∧
    MacLaneElement.valuation Msample eShallow =
      .ok (Msample.val (coeff eShallow.limitValuation.approximation.phi eShallow.degree)) := by
  have hv : Msample.val (coeff eShallow.limitValuation.approximation.phi eShallow.degree)
      = ((0 : ℚ) : WithTop ℚ) := by
    norm_num [Msample, coeff, eShallow, lvShallow, aShallow]
  have hgt : ((3 : ℚ) : WithTop ℚ) >
      Msample.val (coeff eShallow.limitValuation.approximation.phi eShallow.degree) := by
    rw [hv]
    exact WithTop.coe_lt_coe.mpr (by norm_num : (0 : ℚ) < 3)
  have h1 : eShallow.precision = .ok (3 : ℚ) := by
    norm_num [MacLaneElement.precision, eShallow, lvShallow, aShallow]
  exact ⟨h1, hgt, (C2_valuation_guard Msample eShallow 3 h1).1 hgt⟩

/-- A concrete shallow approximation whose tracked coefficient has negative
valuation and whose precision bound is exactly 0. -/
def aNeg : Approximation :=
  { phi := [1/5, 1], mu := 0, basePhi := gen, baseVal := fun _ => 0 }

/-- A concrete element over that approximation. -/
def eNeg : MacLaneElement :=
  { limitValuation :=
      { approximation := aNeg, initialApproximation := aNeg, parentId := 0, valId := 2 },
    degree := 0 }

/-- Claim C2 counterexample: an element whose precision bound is exactly 0
but whose tracked coefficient has valuation -1; the valuation operation
returns -1 instead of failing. -/
theorem C2_counterexample :
    eNeg.precision = .ok (0 : ℚ) ∧
    MacLaneElement.valuation Msample eNeg = .ok (((-1 : ℚ) : WithTop ℚ)) := by
  have h1 : eNeg.precision = .ok (0 : ℚ) := by
    norm_num [MacLaneElement.precision, eNeg, aNeg]
  have h2 : Msample.val (coeff eNeg.limitValuation.approximation.phi eNeg.degree)
      = ((-1 : ℚ) : WithTop ℚ) := by
    norm_num [Msample, coeff, eNeg, aNeg]
  have hlt : ((-1 : ℚ) : WithTop ℚ) < ((0 : ℚ) : WithTop ℚ) :=
    WithTop.coe_lt_coe.mpr (by norm_num : (-1 : ℚ) < 0)
  refine ⟨h1, ?_⟩
  simp [MacLaneElement.valuation, h1, h2, hlt]
  decide

/-- Claim C3: the reduction operation returns the reduction of the tracked
coefficient of the current key polynomial when the precision bound is
strictly positive, and fails otherwise; in particular it fails when the
precision bound equals 0. -/
theorem C3_reduction_guard (M : CompletionModel) (e : MacLaneElement) (p : ℚ)
    (hp : e.precision = .ok p) :
    (p > 0 → MacLaneElement.reduction M e =
        .ok (M.red (coeff e.limitValuation.approximation.phi e.degree)))
    ∧ (¬ p > 0 → MacLaneElement.reduction M e = .error .insufficientReduction)
    ∧ (p = 0 → MacLaneElement.reduction M e = .error .insufficientReduction) := by
  refine ⟨?_, ?_, ?_⟩
  · intro h
    simp [MacLaneElement.reduction, hp, h]
  · intro h
    simp [MacLaneElement.reduction, hp, h]
  · intro h0
    subst h0
    simp [MacLaneElement.reduction, hp]

/-- Witness for C3 at a concrete element with positive precision bound. -/
theorem C3_witness :
    eShallow.precision = .ok (3 : ℚ) ∧
    (3 : ℚ) > 0 ∧
    MacLaneElement.reduction Msample eShallow =
      .ok (Msample.red (coeff eShallow.limitValuation.approximation.phi eShallow.degree)) :=
  by
  have h1 : eShallow.precision = .ok (3 : ℚ) := by
    norm_num [MacLaneElement.precision, eShallow, lvShallow, aShallow]
  exact ⟨h1, by norm_num, (C3_reduction_guard Msample eShallow 3 h1).1 (by norm_num)⟩

/-- Claim C4: against an exact operand, the equality test computes the
valuation of the difference between the operand and the tracked
coefficient, returns not-equal when that valuation is strictly below the
precision bound, fails when it is not, and never returns equal. -/
theorem C4_eq_vs_base (M : CompletionModel) (e : MacLaneElement) (b : ℚ) :
    (∀ p : ℚ, e.precision = .ok p →
      ((M.val (b - coeff e.limitValuation.approximation.phi e.degree) < (p : WithTop ℚ) →
          MacLaneElement.richcmpEq M e (.base b) = .ok false)
       ∧ (¬ M.val (b - coeff e.limitValuation.approximation.phi e.degree) < (p : WithTop ℚ) →
          MacLaneElement.richcmpEq M e (.base b) = .error .comparisonToBase)))
    ∧ MacLaneElement.richcmpEq M e (.base b) ≠ .ok true := by
  constructor
  · intro p hp
    constructor
    · intro h
      simp [MacLaneElement.richcmpEq, hp, h]
    · intro h
      simp [MacLaneElement.richcmpEq, hp, h]
  · intro hc
    rcases he : e.precision with err | p
    · simp [MacLaneElement.richcmpEq, he] at hc
    · by_cases h : M.val (b - coeff e.limitValuation.approximation.phi e.degree) < (p : WithTop ℚ)
      · simp [MacLaneElement.richcmpEq, he, h] at hc
      · simp [MacLaneElement.richcmpEq, he, h] at hc

/-- Witness for C4 at a concrete exact operand that provably differs. -/
theorem C4_witness :
    eShallow.precision = .ok (3 : ℚ) ∧
    Msample.val (58 - coeff eShallow.limitValuation.approximation.phi eShallow.degree)
      < ((3 : ℚ) : WithTop ℚ) ∧
    MacLaneElement.richcmpEq Msample eShallow (.base 58) = .ok false ∧
    MacLaneElement.richcmpEq Msample eShallow (.base 58) ≠ .ok true := by
  have h1 : eShallow.precision = .ok (3 : ℚ) := by
    norm_num [MacLaneElement.precision, eShallow, lvShallow, aShallow]
  have hv : Msample.val (58 - coeff eShallow.limitValuation.approximation.phi eShallow.degree)
      = ((0 : ℚ) : WithTop ℚ) := by
    norm_num [Msample, coeff, eShallow, lvShallow, aShallow]
  have hlt : Msample.val (58 - coeff eShallow.limitValuation.approximation.phi eShallow.degree)
      < ((3 : ℚ) : WithTop ℚ) := by
    rw [hv, WithTop.coe_lt_coe]
    decide
  exact ⟨h1, hlt, ((C4_eq_vs_base Msample eShallow 58).1 3 h1).1 hlt,
    (C4_eq_vs_base Msample eShallow 58).2⟩

/-- Claim C5: between two limit elements over the same parent, the equality
test returns equal exactly when the limit valuations are equal and the
degrees are equal; across different parents it fails. -/
theorem C5_eq_vs_limit (M : CompletionModel) (e f : MacLaneElement) :
    (e.limitValuation.parentId = f.limitValuation.parentId →
      (MacLaneElement.richcmpEq M e (.limit f) = .ok true ↔
        (e.limitValuation.valId = f.limitValuation.valId ∧ e.degree = f.degree)))
    ∧ (e.limitValuation.parentId ≠ f.limitValuation.parentId →
      MacLaneElement.richcmpEq M e (.limit f) = .error .differentRings) := by
  constructor
  · intro h
    simp [MacLaneElement.richcmpEq, h]
  · intro h
    simp [MacLaneElement.richcmpEq, h]

/-- Witness for C5 at two identical concrete elements. -/
theorem C5_witness :
    eShallow.limitValuation.parentId = eShallow.limitValuation.parentId ∧
    MacLaneElement.richcmpEq Msample eShallow (.limit eShallow) = .ok true :=
  ⟨rfl, ((C5_eq_vs_limit Msample eShallow eShallow).1 rfl).mpr ⟨rfl, rfl⟩⟩

/-- Claim C7: the inequality test is the boolean negation of the equality
test and fails exactly when the equality test fails, and every comparison
code other than equality and inequality fails for every operand. -/
theorem C7_operator_contract (M : CompletionModel) (e : MacLaneElement) (other : Operand) :
    (∀ b : Bool, MacLaneElement.richcmp M e other 2 = .ok b ↔
        MacLaneElement.richcmp M e other 3 = .ok (!b))
    ∧ (∀ err : Err, MacLaneElement.richcmp M e other 2 = .error err ↔
        MacLaneElement.richcmp M e other 3 = .error err)
    ∧ (∀ op : Nat, op ≠ 2 → op ≠ 3 →
        MacLaneElement.richcmp M e other op = .error .unsupportedOperator) := by
  refine ⟨?_, ?_, ?_⟩
  · intro b
    rcases h : e.richcmpEq M other with err | v
    · simp [MacLaneElement.richcmp, h, Except.map]
    · cases v <;> cases b <;> simp [MacLaneElement.richcmp, h, Except.map]
  · intro err
    rcases h : e.richcmpEq M other with err' | v <;>
      simp [MacLaneElement.richcmp, h, Except.map]
  · intro op h2 h3
    simp [MacLaneElement.richcmp, h2, h3]

/-- Witness for C7: a concrete ordering comparison fails, and a concrete
inequality is the negation of the concrete equality. -/
theorem C7_witness :
    MacLaneElement.richcmp Msample eShallow (.limit eShallow) 0 = .error .unsupportedOperator ∧
    (MacLaneElement.richcmp Msample eShallow (.limit eShallow) 2 = .ok true ↔
      MacLaneElement.richcmp Msample eShallow (.limit eShallow) 3 = .ok false) :=
  ⟨(C7_operator_contract Msample eShallow (.limit eShallow)).2.2 0
      (by norm_num) (by norm_num),
   (C7_operator_contract Msample eShallow (.limit eShallow)).1 true⟩

/-- A concrete limit element whose degree is beyond the coefficient count
of the current key polynomial. -/
def eBig : MacLaneElement := { limitValuation := lvShallow, degree := 5 }

/-- Claim C8 counterexample: for a degree beyond the coefficient count of
the current key polynomial, the precision computation and the reduction
operation still return values instead of failing. -/
theorem C8_counterexample :
    eBig.limitValuation.approximation.phi.length ≤ eBig.degree ∧
    eBig.precision = .ok (3 : ℚ) ∧
    MacLaneElement.reduction Msample eBig = .ok (0 : ℚ) := by
  have h1 : eBig.precision = .ok (3 : ℚ) := by
    norm_num [MacLaneElement.precision, eBig, lvShallow, aShallow]
  have hco : coeff eBig.limitValuation.approximation.phi eBig.degree = 0 := by decide
  refine ⟨by norm_num [eBig, lvShallow, aShallow], h1, ?_⟩
  simp [MacLaneElement.reduction, h1, hco, Msample, (show (0 : ℚ) < 3 by norm_num)]

/-- Claim C8 (amended): construction from any chain reference and degree
succeeds and only stores the pair; when the degree is at least the
coefficient count of the current key polynomial, the valuation operation
fails (the out-of-range coefficient is zero, of infinite valuation, which
no precision bound strictly exceeds), while the precision computation and
the reduction operation may still return values. -/
theorem C8_construction_lazy (M : CompletionModel) (lv : LimitValuation) (d : Nat)
    (hzero : M.val 0 = ⊤) (hd : lv.approximation.phi.length ≤ d) :
    ((MacLaneElement.mk lv d).limitValuation = lv ∧ (MacLaneElement.mk lv d).degree = d)
    ∧ ∀ r : WithTop ℚ, MacLaneElement.valuation M (MacLaneElement.mk lv d) ≠ .ok r := by
  refine ⟨⟨rfl, rfl⟩, ?_⟩
  intro r hc
  have hc0 : coeff lv.approximation.phi d = 0 := List.getD_eq_default _ _ hd
  rcases he : (MacLaneElement.mk lv d).precision with err | p
  · simp [MacLaneElement.valuation, he] at hc
  · have hv' : M.val (coeff lv.approximation.phi d) = ⊤ := by rw [hc0, hzero]
    simp [MacLaneElement.valuation, he, hv', not_top_lt] at hc

/-- Witness for C8 at a concrete out-of-range degree. -/
theorem C8_witness :
    Msample.val 0 = ⊤ ∧
    lvShallow.approximation.phi.length ≤ 5 ∧
    ((MacLaneElement.mk lvShallow 5).limitValuation = lvShallow ∧
      (MacLaneElement.mk lvShallow 5).degree = 5) ∧
    ∀ r : WithTop ℚ, MacLaneElement.valuation Msample (MacLaneElement.mk lvShallow 5) ≠ .ok r := by
  have hz : Msample.val 0 = ⊤ := by norm_num [Msample]
  have hd : lvShallow.approximation.phi.length ≤ 5 := by norm_num [lvShallow, aShallow]
  exact ⟨hz, hd, (C8_construction_lazy Msample lvShallow 5 hz hd).1,
    (C8_construction_lazy Msample lvShallow 5 hz hd).2⟩

/-- A concrete better approximation, as produced by a refinement step. -/
def aNew : Approximation :=
  { phi := [182, 1], mu := 5, basePhi := gen, baseVal := fun _ => 0 }

/-- Claim C9 counterexample: after a refinement the current approximation
tracks the coefficient 182, yet the display operation still renders the
coefficient 57 of the initial approximation; the display output is
unchanged by refinement, so it does not observe the newer approximation. -/
theorem C9_counterexample :
    Msample.eltRepr (coeff (lvShallow.refine aNew).approximation.phi 0) = "182" ∧
    MacLaneElement.reprStr Msample { limitValuation := lvShallow.refine aNew, degree := 0 }
      = "57 + O(?)" ∧
    MacLaneElement.reprStr Msample { limitValuation := lvShallow.refine aNew, degree := 0 }
      = MacLaneElement.reprStr Msample { limitValuation := lvShallow, degree := 0 } := by
  refine ⟨by decide, by decide, by decide⟩

/-- Claim C9 (amended): the precision, valuation, reduction and
exact-comparison operations read only the current approximation of the
chain at call time (so after a refinement they observe the newer
approximation, whose value the first conjunct exposes), while the display
operation reads the initial approximation of the chain and is therefore
unchanged by refinement. -/
theorem C9_current_state (M : CompletionModel) (lv : LimitValuation) (a : Approximation)
    (d : Nat) (b : ℚ) :
    ((lv.refine a).approximation = a)
    ∧ (∀ lv' : LimitValuation, lv'.approximation = lv.approximation →
        (MacLaneElement.precision { limitValuation := lv', degree := d } =
           MacLaneElement.precision { limitValuation := lv, degree := d }
         ∧ MacLaneElement.valuation M { limitValuation := lv', degree := d } =
           MacLaneElement.valuation M { limitValuation := lv, degree := d }
         ∧ MacLaneElement.reduction M { limitValuation := lv', degree := d } =
           MacLaneElement.reduction M { limitValuation := lv, degree := d }
         ∧ MacLaneElement.richcmpEq M { limitValuation := lv', degree := d } (.base b) =
           MacLaneElement.richcmpEq M { limitValuation := lv, degree := d } (.base b)))
    ∧ MacLaneElement.reprStr M { limitValuation := lv.refine a, degree := d } =
        MacLaneElement.reprStr M { limitValuation := lv, degree := d } := by
  refine ⟨rfl, ?_, rfl⟩
  intro lv' h
  refine ⟨?_, ?_, ?_, ?_⟩ <;>
    simp [MacLaneElement.precision, MacLaneElement.valuation, MacLaneElement.reduction,
      MacLaneElement.richcmpEq, h]

/-- A concrete chain state sharing the current approximation of the shallow
chain but nothing else. -/
def lvAlias : LimitValuation :=
  { approximation := aShallow, initialApproximation := aNew, parentId := 7, valId := 9 }

/-- Witness for C9 at concrete chain states. -/
theorem C9_witness :
    lvAlias.approximation = lvShallow.approximation ∧
    ((lvShallow.refine aNew).approximation = aNew ∧
     MacLaneElement.precision { limitValuation := lvAlias, degree := 0 } =
       MacLaneElement.precision { limitValuation := lvShallow, degree := 0 } ∧
     MacLaneElement.reprStr Msample { limitValuation := lvShallow.refine aNew, degree := 0 } =
       MacLaneElement.reprStr Msample { limitValuation := lvShallow, degree := 0 }) := by
  have h := C9_current_state Msample lvShallow aNew 0 0
  exact ⟨rfl, h.1, (h.2.1 lvAlias rfl).1, h.2.2⟩

/-- Claim C10: over a deep chain, whose predecessor key polynomial is not
the ring generator, the valuation, reduction and exact-comparison
operations all fail with the unsupported-configuration condition of the
precision computation, which each of them consults first. -/
theorem C10_deep_chain_failures (M : CompletionModel) (e : MacLaneElement) (b : ℚ)
    (h : e.limitValuation.approximation.basePhi ≠ gen) :
    MacLaneElement.valuation M e = .error .precisionUnsupported
    ∧ MacLaneElement.reduction M e = .error .precisionUnsupported
    ∧ MacLaneElement.richcmpEq M e (.base b) = .error .precisionUnsupported := by
  have hp : e.precision = .error .precisionUnsupported := by
    simp [MacLaneElement.precision, h]
  exact ⟨by simp [MacLaneElement.valuation, hp],
         by simp [MacLaneElement.reduction, hp],
         by simp [MacLaneElement.richcmpEq, hp]⟩

/-- Witness for C10 at a concrete deep element. -/
theorem C10_witness :
    eDeep.limitValuation.approximation.basePhi ≠ gen ∧
    MacLaneElement.valuation Msample eDeep = .error .precisionUnsupported ∧
    MacLaneElement.reduction Msample eDeep = .error .precisionUnsupported ∧
    MacLaneElement.richcmpEq Msample eDeep (.base 0) = .error .precisionUnsupported := by
  have h : eDeep.limitValuation.approximation.basePhi ≠ gen := by decide
  obtain ⟨h1, h2, h3⟩ := C10_deep_chain_failures Msample eDeep 0 h
  exact ⟨h, h1, h2, h3⟩
